import Mathlib

/-!
Shallow embedding of the agnostic-orderbook matching engine
(`src/anchor/programs/anchor-agnostic-orderbook/src/aob/{state,orderbook,error}.rs`
and the `new_order` / `consume_events` entry points of
`src/anchor/programs/anchor-agnostic-orderbook/src/lib.rs`).

Machine integers (`u64`, `u128`) are embedded as `Nat`; reductions
modulo `2 ^ 64` are written explicitly at the places where the Rust
code can wrap.  Fallible Rust code is embedded with `Except` / `Option`,
and a Rust `panic` (failed `unwrap` or out-of-bounds index) is made
explicit in the result type of the embedded function.

The crit-bit slab (`critbit.rs`) and the fixed-point helpers
(`utils.rs`) are used by the order book but are not among the provided
source files; they are modelled from the specification (see the doc
comments on `Slab`, `fp32_mul`, `fp32_div`).
-/

namespace Aob

/-- Side of an order (state.rs, `enum Side`). -/
inductive Side
  | Bid
  | Ask
deriving DecidableEq, Repr

/-- state.rs `Side::opposite`. -/
def Side.opposite : Side → Side
  | .Bid => .Ask
  | .Ask => .Bid

/-- state.rs `enum SelfTradeBehavior`. -/
inductive SelfTradeBehavior
  | DecrementTake
  | CancelProvide
  | AbortTransaction
deriving DecidableEq, Repr

/-- error.rs `enum AoError` (the variants reachable from the embedded
operations; the full Rust enum has further account-validation variants). -/
inductive AoError
  | EventQueueFull
  | OrderNotFound
  | WouldSelfTrade
  | SlabOutOfSpace
  | NoOperations
  | InvalidBaseQuantity
deriving DecidableEq, Repr

/-- state.rs `enum Event`.  Callback-information fields are byte vectors
(`[u8; 32]` in the Rust code), embedded as `List Nat`. -/
inductive Event
  | none
  | fill (taker_side : Side) (maker_order_id : Nat) (quote_size : Nat) (base_size : Nat)
      (maker_callback_info : List Nat) (taker_callback_info : List Nat)
  | out (side : Side) (order_id : Nat) (base_size : Nat) (delete : Bool)
      (callback_info : List Nat)
deriving DecidableEq, Repr

/-- state.rs `struct EventQueue`: header fields `head`, `count`, `seq_num`,
`callback_info_len` (all `u64`) and the fixed ring buffer `[Event; 8]`
(embedded as a `List Event` of length 8). -/
structure EventQueue where
  head : Nat
  count : Nat
  seq_num : Nat
  callback_info_len : Nat
  buffer : List Event
deriving DecidableEq, Repr

/-- state.rs `EventQueue::new`. -/
def EventQueue.new (callback_info_len : Nat) : EventQueue :=
  ⟨0, 0, 0, callback_info_len, List.replicate 8 Event.none⟩

/-- state.rs `EventQueue::empty`. -/
def EventQueue.empty (q : EventQueue) : Bool :=
  q.count = 0

/-- state.rs `EventQueue::full`. -/
def EventQueue.full (q : EventQueue) : Bool :=
  q.count = q.buffer.length

/-- state.rs `EventQueue::push_back`.  Returns the rejected event
(`Err(event)`) when the queue is full.  Note that the source increments
`head` on a successful push in addition to `count` and `seq_num`. -/
def EventQueue.push_back (q : EventQueue) (event : Event) : Except Event EventQueue :=
  if q.full then Except.error event
  else
    let slot := (q.head + q.count) % q.buffer.length
    Except.ok { q with
      buffer := q.buffer.set slot event
      head := q.head + 1
      count := q.count + 1
      seq_num := q.seq_num + 1 }

/-- state.rs `EventQueue::pop_front`.  The source reads
`self.buffer[self.head as usize]`, which panics when `head` is not less
than the buffer length; the outer `Option.none` models that panic, while
the inner `Option` is the Rust return value. -/
def EventQueue.pop_front (q : EventQueue) : Option (Option Event × EventQueue) :=
  if q.count = 0 then some (Option.none, q)
  else
    match q.buffer.get? q.head with
    | Option.none => Option.none
    | some value =>
        some (some value,
          { q with count := q.count - 1, head := (q.head + 1) % q.buffer.length })

/-- state.rs `EventQueue::gen_order_id`.  The source computes the local
`seq_num = self.seq_num + 1` (a `u64` addition) but never writes it back,
so the queue is returned unchanged.  `!seq_num` on `u64` is
`2 ^ 64 - 1 - seq_num`. -/
def EventQueue.gen_order_id (q : EventQueue) (limit_price : Nat) (side : Side) :
    Nat × EventQueue :=
  let seq_num := (q.seq_num + 1) % 2 ^ 64
  let upper := limit_price <<< 64
  let lower : Nat :=
    match side with
    | .Bid => 2 ^ 64 - 1 - seq_num
    | .Ask => seq_num
  (upper ||| lower, q)

/-- state.rs `ORDER_ID_SIDE_FLAG = 1 << 63`. -/
def ORDER_ID_SIDE_FLAG : Nat := 1 <<< 63

/-- state.rs `get_side_from_order_id`. -/
def get_side_from_order_id (order_id : Nat) : Side :=
  if ORDER_ID_SIDE_FLAG &&& order_id ≠ 0 then .Bid else .Ask

/-- An event-queue operation, for reasoning about sequences of
`push_back` / `pop_front` calls. -/
inductive QueueOp
  | push (event : Event)
  | pop
deriving DecidableEq, Repr

/-- Runs a sequence of queue operations from a given state.  A failed
`push_back` leaves the queue unchanged (the caller merely gets the event
back); a `pop_front` that panics aborts the run with `Option.none`. -/
def runQueueOps : List QueueOp → EventQueue → Option EventQueue
  | [], q => some q
  | QueueOp.push e :: ops, q =>
      match q.push_back e with
      | Except.ok q' => runQueueOps ops q'
      | Except.error _ => runQueueOps ops q
  | QueueOp.pop :: ops, q =>
      match q.pop_front with
      | Option.none => Option.none
      | some (_, q') => runQueueOps ops q'

/-- lib.rs `consume_events` (lines 209–250), specialised to the state it
actually touches: the market's `fee_budget` and the event queue's
`count` header field (the `EventQueueHeader` type and `pop_n` come from
the event-queue module of the `aob` crate, whose source is not provided;
per spec §4.4 `pop_n(k)` pops `min(k, count)` events).  The source
computes the cranker reward as
`(fee_budget * capped).checked_div(count).ok_or(NoOperations).unwrap()`:
when `count = 0` the `checked_div` returns `None` and the `unwrap` of
`Err(NoOperations)` panics, which the `Option.none` result models.
On success the result is `(reward, fee_budget', count')`. -/
def consume_events (fee_budget : Nat) (count : Nat)
    (number_of_entries_to_consume : Nat) : Option (Nat × Nat × Nat) :=
  let capped := min count number_of_entries_to_consume
  if count = 0 then Option.none
  else
    let reward := fee_budget * capped / count
    some (reward, fee_budget - reward, count - capped)

/-- Modelled from the spec: utils.rs (the fixed-point helpers) is not
among the provided source files.  Spec §3.2: `fp32_mul(a, p) = (a * p) >> 32`,
computed at 128-bit width and saturating to `u64::MAX` when the result
exceeds 64 bits. -/
def fp32_mul (a : Nat) (p : Nat) : Nat :=
  min (a * p >>> 32) (2 ^ 64 - 1)

/-- Modelled from the spec: utils.rs is not among the provided source
files.  Spec §3.2/§4.1: `fp32_div(a, p) = (a << 32) / p`, saturating to
`u64::MAX`, with division by zero returning 0. -/
def fp32_div (a : Nat) (p : Nat) : Nat :=
  if p = 0 then 0 else min (a <<< 32 / p) (2 ^ 64 - 1)

/-- critbit.rs `struct LeafNode`: `key : u128`, `callback_info_pt : u32`
(renamed from the spec's `callback_info_ptr`; the field name follows the
uses in orderbook.rs), `base_quantity : u64`. -/
structure LeafNode where
  key : Nat
  callback_info_pt : Nat
  base_quantity : Nat
deriving DecidableEq, Repr

/-- critbit.rs `LeafNode::price`: the upper 64 bits of the key. -/
def LeafNode.price (l : LeafNode) : Nat :=
  l.key >>> 64

/-- critbit.rs `LeafNode::order_id`: the full 128-bit key. -/
def LeafNode.order_id (l : LeafNode) : Nat :=
  l.key

/-- critbit.rs `LeafNode::set_base_quantity`. -/
def LeafNode.set_base_quantity (l : LeafNode) (quantity : Nat) : LeafNode :=
  { l with base_quantity := quantity }

/-- Modelled from the spec: the crit-bit slab (critbit.rs) is not among
the provided source files.  Per spec §4.3 it is an ordered collection of
leaves keyed by the 128-bit order id, held in a fixed-capacity node
arena, together with an append-only callback-info region; its observable
interface is `find_min` / `find_max` (leaf of least / greatest key),
`remove_by_key`, `write_node` (update the leaf at a handle obtained from
a live traversal), `insert_leaf` (fails with `SlabOutOfSpace` at
capacity), `remove_min` / `remove_max`, and the callback-info accessors.
The leaf capacity abstracts the node-arena capacity. -/
structure Slab where
  leaves : List LeafNode
  callback_memory : List (List Nat)
  leaf_capacity : Nat
deriving DecidableEq, Repr

/-- Leaf of least key in a leaf list (empty list gives `Option.none`);
ties go to the earliest occurrence. -/
def minLeaf : List LeafNode → Option LeafNode
  | [] => Option.none
  | l :: ls =>
      match minLeaf ls with
      | Option.none => some l
      | some m => if l.key ≤ m.key then some l else some m

/-- Leaf of greatest key in a leaf list (empty list gives `Option.none`);
ties go to the earliest occurrence. -/
def maxLeaf : List LeafNode → Option LeafNode
  | [] => Option.none
  | l :: ls =>
      match maxLeaf ls with
      | Option.none => some l
      | some m => if m.key ≤ l.key then some l else some m

/-- Spec §4.3 `find_min`: descend following child 0 until a leaf, i.e.
the leaf of least key; `None` iff the tree is empty. -/
def Slab.find_min (s : Slab) : Option LeafNode :=
  minLeaf s.leaves

/-- Spec §4.3 `find_max`: the leaf of greatest key; `None` iff empty. -/
def Slab.find_max (s : Slab) : Option LeafNode :=
  maxLeaf s.leaves

/-- Spec §4.3 `remove_by_key`: removes and returns the leaf with the
given key (`None` when absent). -/
def Slab.remove_by_key (s : Slab) (key : Nat) : Option LeafNode × Slab :=
  match s.leaves.find? (fun l => l.key = key) with
  | Option.none => (Option.none, s)
  | some l => (some l, { s with leaves := s.leaves.filter (fun x => x.key ≠ key) })

/-- Spec §4.3 `write_node` at a handle obtained from a live traversal:
the order book only ever writes a leaf back to the handle under its own
key, so the model updates the leaf with that key in place. -/
def Slab.write_node (s : Slab) (l : LeafNode) : Slab :=
  { s with leaves := s.leaves.map (fun x => if x.key = l.key then l else x) }

/-- Spec §4.3 `insert_leaf`: fails with `SlabOutOfSpace` when the arena
is exhausted, modelled as the leaf count reaching the leaf capacity. -/
def Slab.insert_leaf (s : Slab) (l : LeafNode) : Except AoError Slab :=
  if s.leaf_capacity ≤ s.leaves.length then Except.error AoError.SlabOutOfSpace
  else Except.ok { s with leaves := l :: s.leaves }

/-- Spec §4.3 `remove_min`: `find_min` composed with `remove_by_key`. -/
def Slab.remove_min (s : Slab) : Option LeafNode × Slab :=
  match s.find_min with
  | Option.none => (Option.none, s)
  | some l => (some l, (s.remove_by_key l.key).2)

/-- Spec §4.3 `remove_max`: `find_max` composed with `remove_by_key`. -/
def Slab.remove_max (s : Slab) : Option LeafNode × Slab :=
  match s.find_max with
  | Option.none => (Option.none, s)
  | some l => (some l, (s.remove_by_key l.key).2)

/-- Spec §4.3: the callback-info bytes stored at offset `pt` of the
append-only region (offsets are indices into the list of stored blobs). -/
def Slab.get_callback_info (s : Slab) (pt : Nat) : List Nat :=
  s.callback_memory.getD pt []

/-- Spec §4.3 `write_callback_info`: appends to the callback region and
returns the offset of the stored bytes. -/
def Slab.write_callback_info (s : Slab) (info : List Nat) : Nat × Slab :=
  (s.callback_memory.length, { s with callback_memory := s.callback_memory ++ [info] })

/-- orderbook.rs `struct OrderBookState`. -/
structure OrderBookState where
  bids : Slab
  asks : Slab
  callback_id_len : Nat
deriving DecidableEq, Repr

/-- orderbook.rs `OrderBookState::get_tree` (read access). -/
def OrderBookState.get_tree (b : OrderBookState) : Side → Slab
  | .Bid => b.bids
  | .Ask => b.asks

/-- Writing back through the mutable borrow returned by `get_tree`. -/
def OrderBookState.set_tree (b : OrderBookState) : Side → Slab → OrderBookState
  | .Bid, s => { b with bids := s }
  | .Ask, s => { b with asks := s }

/-- orderbook.rs `OrderBookState::find_bbo`. -/
def OrderBookState.find_bbo (b : OrderBookState) : Side → Option LeafNode
  | .Bid => b.bids.find_max
  | .Ask => b.asks.find_min

/-- orderbook.rs `OrderBookState::is_empty`. -/
def OrderBookState.is_empty (b : OrderBookState) : Bool :=
  b.asks.leaves.isEmpty && b.bids.leaves.isEmpty

/-- orderbook.rs `struct OrderSummary`. -/
structure OrderSummary where
  posted_order_id : Option Nat
  total_base_qty : Nat
  total_quote_qty : Nat
  total_base_qty_posted : Nat
deriving DecidableEq, Repr

/-- params.rs `struct NewOrderParams`. -/
structure NewOrderParams where
  max_base_qty : Nat
  max_quote_qty : Nat
  limit_price : Nat
  side : Side
  match_limit : Nat
  callback_info : List Nat
  post_only : Bool
  post_allowed : Bool
  self_trade_behavior : SelfTradeBehavior
deriving DecidableEq, Repr

/-- The `crossed` assignment of the matching loop (orderbook.rs lines
186–189): a bid crosses when its limit is at least the trade price, an
ask when its limit is at most the trade price. -/
def crossedFlag (side : Side) (limit_price : Nat) (trade_price : Nat) : Bool :=
  match side with
  | .Bid => decide (trade_price ≤ limit_price)
  | .Ask => decide (limit_price ≤ trade_price)

/-- The mutable state of the matching loop of orderbook.rs `new_order`:
the two trees, the event queue, the remaining base and quote quantities,
the remaining `match_limit`, and the `crossed` flag. -/
structure LoopState where
  book : OrderBookState
  queue : EventQueue
  base_qty_remaining : Nat
  quote_qty_remaining : Nat
  match_limit : Nat
  crossed : Bool
deriving DecidableEq, Repr

/-- Outcome of one iteration of the matching loop. -/
inductive StepResult
  | brk (s : LoopState)
  | failed (e : AoError) (s : LoopState)
  | cont (s : LoopState)
deriving DecidableEq, Repr

/-- One iteration of the matching loop of orderbook.rs `new_order`
(lines 165–308), transcribed branch by branch.  `failed` carries the
state as mutated up to the failure point (the source performs no
rollback); note in particular that in the maker-emptied branch the
source removes the maker from the tree before pushing the `Out` event,
so an `EventQueueFull` there leaves the fill pushed and the maker
removed. -/
def matchStep (callback_id_len : Nat) (min_base_order_size : Nat) (side : Side)
    (limit_price : Nat) (callback_info : List Nat) (post_only : Bool)
    (self_trade_behavior : SelfTradeBehavior) (s : LoopState) : StepResult :=
  if s.match_limit = 0 then .brk s
  else
    match s.book.find_bbo side.opposite with
    | Option.none => .brk { s with crossed := false }
    | some best_bo_ref =>
      let trade_price := best_bo_ref.price
      let crossed := crossedFlag side limit_price trade_price
      if post_only || !crossed then .brk { s with crossed := crossed }
      else
        let offer_size := best_bo_ref.base_quantity
        let base_trade_qty :=
          min offer_size
            (min s.base_qty_remaining (fp32_div s.quote_qty_remaining best_bo_ref.price))
        if base_trade_qty = 0 then .brk { s with crossed := crossed }
        else
          if self_trade_behavior ≠ SelfTradeBehavior.DecrementTake ∧
              callback_info.take callback_id_len =
                ((s.book.get_tree side.opposite).get_callback_info
                  best_bo_ref.callback_info_pt).take callback_id_len then
            match self_trade_behavior with
            | .AbortTransaction => .failed .WouldSelfTrade { s with crossed := crossed }
            | _ =>
              -- CancelProvide (DecrementTake is unreachable here)
              let cancelled_provide_base_qty :=
                min s.base_qty_remaining best_bo_ref.base_quantity
              let remaining_provide_base_qty :=
                best_bo_ref.base_quantity - cancelled_provide_base_qty
              let delete := remaining_provide_base_qty = 0
              let provide_out := Event.out side.opposite best_bo_ref.order_id
                cancelled_provide_base_qty delete (List.replicate 32 0)
              match s.queue.push_back provide_out with
              | Except.error _ => .failed .EventQueueFull { s with crossed := crossed }
              | Except.ok queue' =>
                let tree' :=
                  if delete then
                    ((s.book.get_tree side.opposite).remove_by_key best_bo_ref.order_id).2
                  else
                    (s.book.get_tree side.opposite).write_node
                      (best_bo_ref.set_base_quantity remaining_provide_base_qty)
                .cont { s with
                  book := s.book.set_tree side.opposite tree'
                  queue := queue'
                  crossed := crossed }
          else
            let quote_maker_qty := fp32_mul base_trade_qty trade_price
            let maker_fill := Event.fill side best_bo_ref.order_id quote_maker_qty
              base_trade_qty (List.replicate 32 0) (List.replicate 32 0)
            match s.queue.push_back maker_fill with
            | Except.error _ => .failed .EventQueueFull { s with crossed := crossed }
            | Except.ok queue' =>
              let best_bo' :=
                best_bo_ref.set_base_quantity (best_bo_ref.base_quantity - base_trade_qty)
              let base_qty_remaining' := s.base_qty_remaining - base_trade_qty
              let quote_qty_remaining' := s.quote_qty_remaining - quote_maker_qty
              if best_bo'.base_quantity ≤ min_base_order_size then
                let tree' :=
                  ((s.book.get_tree side.opposite).remove_by_key best_bo_ref.order_id).2
                let book' := s.book.set_tree side.opposite tree'
                let out_event := Event.out side.opposite best_bo_ref.order_id
                  best_bo'.base_quantity true (List.replicate 32 0)
                match queue'.push_back out_event with
                | Except.error _ => .failed .EventQueueFull
                    { s with book := book', queue := queue', crossed := crossed }
                | Except.ok queue'' => .cont
                    { book := book'
                      queue := queue''
                      base_qty_remaining := base_qty_remaining'
                      quote_qty_remaining := quote_qty_remaining'
                      match_limit := s.match_limit - 1
                      crossed := crossed }
              else
                let book' := s.book.set_tree side.opposite
                  ((s.book.get_tree side.opposite).write_node best_bo')
                .cont
                  { book := book'
                    queue := queue'
                    base_qty_remaining := s.base_qty_remaining - base_trade_qty
                    quote_qty_remaining := s.quote_qty_remaining - quote_maker_qty
                    match_limit := s.match_limit - 1
                    crossed := crossed }

/-- Result of running the matching loop to completion. -/
inductive LoopResult
  | done (s : LoopState)
  | failed (e : AoError) (s : LoopState)
  | outOfFuel (s : LoopState)
deriving DecidableEq, Repr

/-- The matching loop of orderbook.rs `new_order`, iterated with fuel.
The source loop always terminates (each iteration either decrements
`match_limit` or strictly shrinks the opposite tree), and `new_order`
supplies fuel exceeding that iteration bound, so `outOfFuel` is an
unreachable artifact of the embedding. -/
def matchLoop (callback_id_len : Nat) (min_base_order_size : Nat) (side : Side)
    (limit_price : Nat) (callback_info : List Nat) (post_only : Bool)
    (self_trade_behavior : SelfTradeBehavior) : Nat → LoopState → LoopResult
  | 0, s => .outOfFuel s
  | fuel + 1, s =>
      match matchStep callback_id_len min_base_order_size side limit_price callback_info
          post_only self_trade_behavior s with
      | .brk s' => .done s'
      | .failed e s' => .failed e s'
      | .cont s' =>
          matchLoop callback_id_len min_base_order_size side limit_price callback_info
            post_only self_trade_behavior fuel s'

/-- An upper bound on the iterations the matching loop can make from a
given state: iterations that consume `match_limit` plus iterations that
strictly shrink the opposite tree (measured by leaf count plus resting
quantity). -/
def loopFuel (s : LoopState) (side : Side) : Nat :=
  s.match_limit +
    ((s.book.get_tree side.opposite).leaves.map
      (fun l => l.base_quantity + 1)).sum + 1

/-- Result of orderbook.rs `new_order`: `ok` and `err` carry the final
in-memory state of the book and queue (the source mutates them in place
and performs no rollback on error); `panicked` models a Rust panic (a
failed `unwrap`, reachable e.g. when the post-eviction re-insert fails)
as well as the fuel artifact of the loop embedding. -/
inductive NewOrderResult
  | ok (summary : OrderSummary) (book : OrderBookState) (queue : EventQueue)
  | err (e : AoError) (book : OrderBookState) (queue : EventQueue)
  | panicked (book : OrderBookState) (queue : EventQueue)
deriving DecidableEq, Repr

/-- orderbook.rs `OrderBookState::new_order` (lines 141–370): the
matching loop followed by the posting phase, transcribed branch by
branch (see `matchStep` for the loop body).  In the eviction branch the
source hardcodes `side: Side::Bid` on the `Out` event and pushes it
after the eviction, retrying the insert exactly once. -/
def OrderBookState.new_order (book : OrderBookState) (params : NewOrderParams)
    (queue : EventQueue) (min_base_order_size : Nat) : NewOrderResult :=
  let side := params.side
  let init : LoopState :=
    ⟨book, queue, params.max_base_qty, params.max_quote_qty, params.match_limit, true⟩
  match matchLoop book.callback_id_len min_base_order_size side params.limit_price
      params.callback_info params.post_only params.self_trade_behavior
      (loopFuel init side) init with
  | .outOfFuel s => .panicked s.book s.queue
  | .failed e s => .err e s.book s.queue
  | .done s =>
    let base_qty_to_post :=
      min (fp32_div s.quote_qty_remaining params.limit_price) s.base_qty_remaining
    if s.crossed || !params.post_allowed || base_qty_to_post ≤ min_base_order_size then
      .ok ⟨Option.none, params.max_base_qty - s.base_qty_remaining,
        params.max_quote_qty - s.quote_qty_remaining, 0⟩ s.book s.queue
    else
      let (new_leaf_order_id, queue1) := s.queue.gen_order_id params.limit_price side
      let (callback_info_offset, tree1) :=
        (s.book.get_tree side).write_callback_info params.callback_info
      let book1 := s.book.set_tree side tree1
      let new_leaf : LeafNode := ⟨new_leaf_order_id, callback_info_offset, base_qty_to_post⟩
      let finish := fun (book' : OrderBookState) (queue' : EventQueue) =>
        let base_qty_remaining' := s.base_qty_remaining - base_qty_to_post
        let quote_qty_remaining' :=
          s.quote_qty_remaining - fp32_mul base_qty_to_post params.limit_price
        NewOrderResult.ok
          ⟨some new_leaf_order_id, params.max_base_qty - base_qty_remaining',
            params.max_quote_qty - quote_qty_remaining', base_qty_to_post⟩ book' queue'
      match (book1.get_tree side).insert_leaf new_leaf with
      | Except.ok tree2 => finish (book1.set_tree side tree2) queue1
      | Except.error _ =>
        -- SlabOutOfSpace: boot out the least aggressive order and retry once
        let (evicted, treeE) :=
          match side with
          | Side.Bid => (book1.get_tree Side.Bid).remove_min
          | Side.Ask => (book1.get_tree Side.Ask).remove_max
        match evicted with
        | Option.none => .panicked book1 queue1   -- the source unwraps the eviction
        | some l =>
          let bookE := book1.set_tree side treeE
          let out := Event.out Side.Bid l.order_id l.base_quantity true
            (List.replicate 32 0)
          match queue1.push_back out with
          | Except.error _ => .err .EventQueueFull bookE queue1
          | Except.ok queue2 =>
            match (bookE.get_tree side).insert_leaf new_leaf with
            | Except.error _ => .panicked bookE queue2  -- the source unwraps the retry
            | Except.ok tree3 => finish (bookE.set_tree side tree3) queue2

/-! ### Concrete scenarios used to settle the claims -/

/-- An empty order book with room for ten leaves per side and
`callback_id_len = 8`. -/
def zeroQtyBook : OrderBookState := ⟨⟨[], [], 10⟩, ⟨[], [], 10⟩, 8⟩

/-- A `new_order` parameter record with `max_base_qty = 0`. -/
def zeroQtyParams : NewOrderParams :=
  ⟨0, 1000, 100 <<< 32, .Bid, 10, List.replicate 32 1, false, true, .DecrementTake⟩

/-- Key of a resting bid at price 1 (FP32). -/
def fillMakerKey : Nat := (1 <<< 32) <<< 64

/-- A book holding one resting bid of quantity 10 whose stored
callback-info bytes are thirty-two 7s. -/
def fillBook : OrderBookState :=
  ⟨⟨[⟨fillMakerKey, 0, 10⟩], [List.replicate 32 7], 10⟩, ⟨[], [], 10⟩, 8⟩

/-- A taker ask of 4 base units at price 1 from an owner whose
callback-info bytes are thirty-two 9s. -/
def fillParams : NewOrderParams :=
  ⟨4, 2 ^ 64 - 1, 1 <<< 32, .Ask, 10, List.replicate 32 9, false, false, .DecrementTake⟩

/-- The book after `fillParams` matches against `fillBook`: the maker is
decremented to 6. -/
def fillBookAfter : OrderBookState :=
  ⟨⟨[⟨fillMakerKey, 0, 6⟩], [List.replicate 32 7], 10⟩, ⟨[], [], 10⟩, 8⟩

/-- The queue after `fillParams` matches against `fillBook`: one `Fill`
event whose callback-info fields are zeroed. -/
def fillQueueAfter : EventQueue :=
  ⟨1, 1, 1, 32,
    Event.fill .Ask fillMakerKey 4 4 (List.replicate 32 0) (List.replicate 32 0) ::
      List.replicate 7 Event.none⟩

/-- Key of a resting ask at price 3 (FP32). -/
def evictLowAskKey : Nat := (3 <<< 32) <<< 64

/-- Key of a resting ask at price 4 (FP32), the highest-price ask. -/
def evictHighAskKey : Nat := (4 <<< 32) <<< 64

/-- An ask tree at its capacity of two leaves, so that posting a third
ask triggers the eviction branch. -/
def evictBook : OrderBookState :=
  ⟨⟨[], [], 10⟩,
   ⟨[⟨evictLowAskKey, 0, 5⟩, ⟨evictHighAskKey, 1, 6⟩],
    [List.replicate 32 7, List.replicate 32 8], 2⟩, 8⟩

/-- A postable ask of 3 base units at price 2: it does not cross (the
bid tree is empty) and must be inserted into the full ask tree. -/
def evictParams : NewOrderParams :=
  ⟨3, 2 ^ 64 - 1, 2 <<< 32, .Ask, 10, List.replicate 32 9, false, true, .DecrementTake⟩

/-- The order id generated for the posted ask of `evictParams`. -/
def evictPostedId : Nat := ((2 <<< 32) <<< 64) ||| 1

/-- The book after posting `evictParams` into `evictBook`: the
highest-price ask was evicted and the new ask inserted. -/
def evictBookAfter : OrderBookState :=
  ⟨⟨[], [], 10⟩,
   ⟨[⟨evictPostedId, 2, 3⟩, ⟨evictLowAskKey, 0, 5⟩],
    [List.replicate 32 7, List.replicate 32 8, List.replicate 32 9], 2⟩, 8⟩

/-- The queue after posting `evictParams` into `evictBook`: one `Out`
event for the evicted ask, carrying side `Bid` (sic). -/
def evictQueueAfter : EventQueue :=
  ⟨1, 1, 1, 32,
    Event.out .Bid evictHighAskKey 6 true (List.replicate 32 0) ::
      List.replicate 7 Event.none⟩

/-- Key of a resting bid at price 1 owned by the taker of
`abortParams` (lower 64 bits are `!seq` for a bid). -/
def abortOwnBidKey : Nat := ((1 <<< 32) <<< 64) ||| (2 ^ 64 - 1 - 5)

/-- Key of a resting bid at price 2 owned by a different actor. -/
def abortOtherBidKey : Nat := ((2 <<< 32) <<< 64) ||| (2 ^ 64 - 1 - 3)

/-- A book with two resting bids: the best bid belongs to another actor
(callback id 9s), the next one to the taker itself (callback id 7s). -/
def abortBook : OrderBookState :=
  ⟨⟨[⟨abortOwnBidKey, 0, 6⟩, ⟨abortOtherBidKey, 1, 5⟩],
    [List.replicate 32 7, List.replicate 32 9], 10⟩,
   ⟨[], [], 10⟩, 8⟩

/-- A taker ask under `AbortTransaction` that first consumes the other
actor's bid and then hits its own bid, aborting with `WouldSelfTrade`. -/
def abortParams : NewOrderParams :=
  ⟨20, 2 ^ 64 - 1, 1 <<< 32, .Ask, 10, List.replicate 32 7, false, true, .AbortTransaction⟩

/-- The book state `new_order` leaves behind when it aborts on
`abortParams`: the other actor's bid has already been consumed. -/
def abortBookAfter : OrderBookState :=
  ⟨⟨[⟨abortOwnBidKey, 0, 6⟩],
    [List.replicate 32 7, List.replicate 32 9], 10⟩,
   ⟨[], [], 10⟩, 8⟩

/-- The queue state `new_order` leaves behind when it aborts on
`abortParams`: the `Fill` and `Out` events of the first match are still
in the buffer (at slots 0 and 2, the gap being a further effect of
`push_back` incrementing `head`). -/
def abortQueueAfter : EventQueue :=
  ⟨2, 2, 2, 32,
    [Event.fill .Ask abortOtherBidKey 10 5 (List.replicate 32 0) (List.replicate 32 0),
     Event.none,
     Event.out .Bid abortOtherBidKey 0 true (List.replicate 32 0),
     Event.none, Event.none, Event.none, Event.none, Event.none]⟩

/-- A book holding a single resting bid owned by the same actor as the
taker of `selfParams`. -/
def selfBook : OrderBookState :=
  ⟨⟨[⟨((1 <<< 32) <<< 64) ||| (2 ^ 64 - 1 - 5), 0, 6⟩], [List.replicate 32 7], 10⟩,
   ⟨[], [], 10⟩, 8⟩

/-- A taker ask under `AbortTransaction` whose first touched maker is
the taker's own bid. -/
def selfParams : NewOrderParams :=
  ⟨20, 2 ^ 64 - 1, 1 <<< 32, .Ask, 10, List.replicate 32 7, false, true, .AbortTransaction⟩

/-- An empty book used to exercise the posting path of `new_order`. -/
def postBook : OrderBookState := ⟨⟨[], [], 4⟩, ⟨[], [], 4⟩, 8⟩

/-- A postable bid of 5 base units at price 1. -/
def postParams : NewOrderParams :=
  ⟨5, 2 ^ 64 - 1, 1 <<< 32, .Bid, 10, List.replicate 32 2, false, true, .DecrementTake⟩

/-- The book after posting `postParams` into `postBook`. -/
def postBookAfter : OrderBookState :=
  ⟨⟨[⟨((1 <<< 32) <<< 64) ||| (2 ^ 64 - 1 - 1), 0, 5⟩], [List.replicate 32 2], 4⟩,
   ⟨[], [], 4⟩, 8⟩

/-! ### Notions used by the invariant proofs (C6) -/

/-- The key ordering that makes a leaf the best of its side: greatest
key for bids, least key for asks. -/
def bboKeyLe (sd : Side) (u v : Nat) : Prop :=
  match sd with
  | .Bid => v ≤ u
  | .Ask => u ≤ v

/-- The best leaf of one side of the book, as a function of the leaf
list: `find_max` for bids, `find_min` for asks. -/
def bboLeaf (sd : Side) (ls : List LeafNode) : Option LeafNode :=
  match sd with
  | .Bid => maxLeaf ls
  | .Ask => minLeaf ls

/-- Every leaf of the list has base quantity strictly above the
threshold (spec property 9). -/
def goodLeaves (min_bos : Nat) (ls : List LeafNode) : Prop :=
  ∀ l ∈ ls, min_bos < l.base_quantity

/-- The transient state of a partially cancelled self-trade maker: the
leaf is the best of the opposite tree, it self-trades with the taker
under `CancelProvide`, and the loop is guaranteed to touch it again
(`match_limit` is not yet exhausted, the prices cross, the remaining
base and quote can still trade at least one unit).  Such a leaf may
momentarily rest with `base_quantity ≤ min_base_order_size`, but the
matching loop always removes it before breaking. -/
def BadBest (cil : Nat) (sd : Side) (lp : Nat) (ci : List Nat) (po : Bool)
    (stb : SelfTradeBehavior) (s : LoopState) (l : LeafNode) : Prop :=
  stb = SelfTradeBehavior.CancelProvide ∧ po = false ∧ s.match_limit ≠ 0 ∧
  1 ≤ s.base_qty_remaining ∧ 1 ≤ fp32_div s.quote_qty_remaining l.price ∧
  crossedFlag sd lp l.price = true ∧ 1 ≤ l.base_quantity ∧
  ci.take cil =
    ((s.book.get_tree sd.opposite).get_callback_info l.callback_info_pt).take cil ∧
  s.book.find_bbo sd.opposite = some l

/-- The matching-loop invariant: every leaf of the opposite tree is
above the size threshold except possibly the transient `BadBest` leaf,
and every leaf of the taker-side tree is above the threshold. -/
def LoopInv (cil min_bos : Nat) (sd : Side) (lp : Nat) (ci : List Nat) (po : Bool)
    (stb : SelfTradeBehavior) (s : LoopState) : Prop :=
  (∀ l ∈ (s.book.get_tree sd.opposite).leaves,
      min_bos < l.base_quantity ∨ BadBest cil sd lp ci po stb s l) ∧
  goodLeaves min_bos (s.book.get_tree sd).leaves

/-! ### Claim theorems: the event queue (C2, C3, C7, C10) -/

/-- C2 (code_bug): the claim states that a successful `push_back` leaves
`head` unchanged, as the specification requires.  Evaluating the source
at the failing input — a push onto the fresh queue — shows that `head`
moves from 0 to 1: `push_back` increments `head` along with `count` and
`seq_num`, which contradicts the `pop_front` side of the same deque. -/
theorem c2_push_back_increments_head :
    (EventQueue.new 32).push_back (Event.out .Bid 1 1 true (List.replicate 32 0)) =
      Except.ok ⟨1, 1, 1, 32,
        Event.out .Bid 1 1 true (List.replicate 32 0) :: List.replicate 7 Event.none⟩ ∧
    (EventQueue.new 32).head = 0 := by
  constructor <;> rfl

/-- C3 (code_bug): the claim states that `gen_order_id` increments the
stored `seq_num`, so successive order ids are distinct.  Evaluating the
source shows the stored `seq_num` is unchanged (the incremented value is
never written back) and two successive calls return the same id. -/
theorem c3_gen_order_id_not_persisted :
    ((EventQueue.new 32).gen_order_id 5 .Bid).2.seq_num = 0 ∧
    (((EventQueue.new 32).gen_order_id 5 .Bid).2.gen_order_id 5 .Bid).1 =
      ((EventQueue.new 32).gen_order_id 5 .Bid).1 := by
  constructor <;> rfl

/-- C7 (code_bug): the claim states that `consume_events` completes for
every queue state, reporting problems such as `NoOperations` as error
values.  Evaluating the source at an empty queue (`count = 0`) shows the
reward computation `checked_div(count).ok_or(NoOperations).unwrap()`
panics instead of returning the error. -/
theorem c7_consume_events_panics_on_empty_queue :
    consume_events 100 0 5 = Option.none := rfl

/-- C10 (code_bug): the claim states that along every `push_back` /
`pop_front` sequence from the fresh queue the `head` index used by
`pop_front` stays below the buffer length 8.  Because `push_back`
increments `head`, eight successful pushes drive `head` to 8 and the
next `pop_front` indexes out of bounds (the modelled panic). -/
theorem c10_pop_front_out_of_bounds :
    runQueueOps
      (List.replicate 8 (QueueOp.push (Event.out .Bid 1 1 true [])) ++ [QueueOp.pop])
      (EventQueue.new 32) = Option.none := rfl

/-! ### Claim theorems: new_order scenarios (C8, C4, C5, C1 counterexample) -/

/-- C8 (code_bug): the claim states that `new_order` with
`max_base_qty = 0` fails with `InvalidBaseQuantity`.  Evaluating the
source shows the call succeeds with an all-zero summary: no code path in
the provided sources ever returns `InvalidBaseQuantity`, although the
error variant is declared ("The base quantity must be > 0"). -/
theorem c8_zero_base_qty_returns_ok :
    zeroQtyBook.new_order zeroQtyParams (EventQueue.new 32) 1 =
      NewOrderResult.ok ⟨Option.none, 0, 0, 0⟩ zeroQtyBook (EventQueue.new 32) := rfl

/-- C4 (code_bug): the claim states that every `Fill` carries the
maker's stored callback info and the taker's supplied callback info.
Evaluating the source at a plain match shows the emitted `Fill` has both
fields zeroed (the `FIXME` sites in orderbook.rs), although the maker's
stored bytes are thirty-two 7s and the taker supplied thirty-two 9s. -/
theorem c4_fill_event_zeroes_callback_info :
    fillBook.new_order fillParams (EventQueue.new 32) 1 =
      NewOrderResult.ok ⟨Option.none, 4, 4, 0⟩ fillBookAfter fillQueueAfter ∧
    fillQueueAfter.buffer.head? =
      some (Event.fill .Ask fillMakerKey 4 4
        (List.replicate 32 0) (List.replicate 32 0)) ∧
    fillBook.bids.get_callback_info 0 = List.replicate 32 7 ∧
    fillParams.callback_info = List.replicate 32 9 ∧
    List.replicate 32 7 ≠ List.replicate (32 : Nat) 0 ∧
    List.replicate 32 9 ≠ List.replicate (32 : Nat) 0 := by
  refine ⟨rfl, rfl, rfl, rfl, ?_, ?_⟩ <;> decide

/-- C5 (code_bug): the claim states that the `Out` event pushed on an
eviction carries `side` equal to the posting side.  Evaluating the
source at an ask-side eviction shows the rest of the claim holds — the
highest-price resting ask is evicted with its full quantity and
`delete = true`, and the insert is retried once, successfully — but the
event's `side` is hardcoded to `Bid` even though the posting side is
`Ask`. -/
theorem c5_ask_eviction_out_event_side_is_bid :
    evictBook.new_order evictParams (EventQueue.new 32) 1 =
      NewOrderResult.ok ⟨some evictPostedId, 3, 6, 3⟩ evictBookAfter evictQueueAfter ∧
    evictQueueAfter.buffer.head? =
      some (Event.out .Bid evictHighAskKey 6 true (List.replicate 32 0)) ∧
    evictParams.side = Side.Ask ∧
    evictBook.asks.find_max = some ⟨evictHighAskKey, 1, 6⟩ := by
  refine ⟨rfl, rfl, rfl, rfl⟩

/-- C1 (corrected), counterexample: the claim states that a `new_order`
call failing with `WouldSelfTrade` leaves the bids, asks and event queue
exactly as before the call.  At this input the call returns
`WouldSelfTrade` after one completed match: the other actor's bid is
gone from the bids tree and the `Fill`/`Out` events of that match remain
in the queue, so the state differs from the initial one. -/
theorem c1_counterexample :
    abortBook.new_order abortParams (EventQueue.new 32) 0 =
      NewOrderResult.err AoError.WouldSelfTrade abortBookAfter abortQueueAfter ∧
    abortBookAfter ≠ abortBook ∧
    abortQueueAfter ≠ EventQueue.new 32 := by
  refine ⟨rfl, ?_, ?_⟩ <;> decide

/-! ### The order-id codec (C9) -/

/-- Bit 63 of a composed order id comes from the lower (sequence) half,
since the price occupies bits 64–127. -/
theorem orderId_testBit_63 (p lower : Nat) :
    ((p <<< 64) ||| lower).testBit 63 = lower.testBit 63 := by
  simp [Nat.testBit_lor, Nat.testBit_shiftLeft]

/-- Shifting a composed order id right by 64 recovers the price when the
lower half fits in 64 bits. -/
theorem orderId_shiftRight_64 (p lower : Nat) (hl : lower < 2 ^ 64) :
    ((p <<< 64) ||| lower) >>> 64 = p := by
  apply Nat.eq_of_testBit_eq
  intro i
  rw [Nat.testBit_shiftRight, Nat.testBit_lor, Nat.testBit_shiftLeft]
  have hlow : lower.testBit (64 + i) = false :=
    Nat.testBit_lt_two_pow
      (lt_of_lt_of_le hl (Nat.pow_le_pow_right (by norm_num) (by omega)))
  have h64 : 64 + i - 64 = i := by omega
  simp [hlow, h64]

/-- `get_side_from_order_id` tests exactly bit 63 of the key. -/
theorem get_side_from_order_id_eq_testBit (k : Nat) :
    get_side_from_order_id k = if k.testBit 63 then Side.Bid else Side.Ask := by
  unfold get_side_from_order_id ORDER_ID_SIDE_FLAG
  have h1 : (1 <<< 63 : Nat) = 2 ^ 63 := by simp [Nat.shiftLeft_eq]
  rw [h1, Nat.two_pow_and]
  cases h : k.testBit 63 <;> simp [h]

/-- C9 (confirmed): for `seq_num + 1 < 2^63` and a 64-bit price, the
side read back from a generated order id is the side that was passed in
(bit 63 is set exactly for bids), and the upper 64 bits of the id are
the limit price. -/
theorem c9_order_id_roundtrip (q : EventQueue) (limit_price : Nat) (side : Side)
    (_hp : limit_price < 2 ^ 64) (hs : q.seq_num + 1 < 2 ^ 63) :
    get_side_from_order_id (q.gen_order_id limit_price side).1 = side ∧
    (q.gen_order_id limit_price side).1 >>> 64 = limit_price := by
  have h64 : (2 : Nat) ^ 64 = 2 ^ 63 * 2 := by rw [pow_succ]
  have hmod : (q.seq_num + 1) % 2 ^ 64 = q.seq_num + 1 :=
    Nat.mod_eq_of_lt (by omega)
  cases side with
  | Bid =>
      have hl : 2 ^ 64 - 1 - (q.seq_num + 1) < 2 ^ 64 := by omega
      have hbit : (2 ^ 64 - 1 - (q.seq_num + 1)).testBit 63 = true := by
        rw [Nat.testBit_to_div_mod]
        have hdiv : (2 ^ 64 - 1 - (q.seq_num + 1)) / 2 ^ 63 = 1 :=
          Nat.div_eq_of_lt_le (by omega) (by omega)
        rw [hdiv]
        rfl
      constructor
      · rw [show (q.gen_order_id limit_price .Bid).1 =
              (limit_price <<< 64) ||| (2 ^ 64 - 1 - ((q.seq_num + 1) % 2 ^ 64)) from rfl,
            hmod, get_side_from_order_id_eq_testBit, orderId_testBit_63, hbit]
        rfl
      · rw [show (q.gen_order_id limit_price .Bid).1 =
              (limit_price <<< 64) ||| (2 ^ 64 - 1 - ((q.seq_num + 1) % 2 ^ 64)) from rfl,
            hmod, orderId_shiftRight_64 _ _ hl]
  | Ask =>
      have hl : q.seq_num + 1 < 2 ^ 64 := by omega
      have hbit : (q.seq_num + 1).testBit 63 = false :=
        Nat.testBit_lt_two_pow hs
      constructor
      · rw [show (q.gen_order_id limit_price .Ask).1 =
              (limit_price <<< 64) ||| ((q.seq_num + 1) % 2 ^ 64) from rfl,
            hmod, get_side_from_order_id_eq_testBit, orderId_testBit_63, hbit]
        rfl
      · rw [show (q.gen_order_id limit_price .Ask).1 =
              (limit_price <<< 64) ||| ((q.seq_num + 1) % 2 ^ 64) from rfl,
            hmod, orderId_shiftRight_64 _ _ hl]

/-- C9 witness: the round-trip at a concrete queue, price and side. -/
theorem c9_order_id_roundtrip_witness :
    (5 : Nat) < 2 ^ 64 ∧ (EventQueue.new 32).seq_num + 1 < 2 ^ 63 ∧
    (get_side_from_order_id ((EventQueue.new 32).gen_order_id 5 .Bid).1 = Side.Bid ∧
      ((EventQueue.new 32).gen_order_id 5 .Bid).1 >>> 64 = 5) :=
  ⟨by norm_num, by norm_num [EventQueue.new],
    c9_order_id_roundtrip (EventQueue.new 32) 5 .Bid (by norm_num)
      (by norm_num [EventQueue.new])⟩

/-! ### Atomicity of first-iteration aborts (C1, amended) -/

/-- A matching iteration that detects a self-trade under
`AbortTransaction` fails with `WouldSelfTrade` leaving the book and
queue of the loop state untouched. -/
theorem matchStep_abort (cil min_bos : Nat) (sd : Side) (lp : Nat) (ci : List Nat)
    (s : LoopState) (best : LeafNode)
    (hml : s.match_limit ≠ 0)
    (hbbo : s.book.find_bbo sd.opposite = some best)
    (hcross : crossedFlag sd lp best.price = true)
    (hqty : min best.base_quantity (min s.base_qty_remaining
      (fp32_div s.quote_qty_remaining best.price)) ≠ 0)
    (hid : ci.take cil =
      ((s.book.get_tree sd.opposite).get_callback_info best.callback_info_pt).take cil) :
    matchStep cil min_bos sd lp ci false SelfTradeBehavior.AbortTransaction s =
      StepResult.failed AoError.WouldSelfTrade { s with crossed := true } := by
  unfold matchStep
  rw [if_neg hml, hbbo]
  dsimp only
  rw [hcross]
  simp only [Bool.not_true, Bool.or_false, Bool.false_or]
  rw [if_neg (by simp : ¬(false : Bool) = true), if_neg hqty,
    if_pos ⟨by decide, hid⟩]

/-- C1 (corrected), amended theorem: when the `WouldSelfTrade` abort is
raised on the very first maker touched — the best opposite-side leaf
crosses, trades a nonzero quantity and shares the taker's callback-id
prefix, under `AbortTransaction` — `new_order` fails before pushing any
event or touching either tree, so the bids slab, the asks slab and the
event queue are returned exactly as they were. -/
theorem c1_amended (book : OrderBookState) (queue : EventQueue) (params : NewOrderParams)
    (min_bos : Nat) (best : LeafNode)
    (hstb : params.self_trade_behavior = SelfTradeBehavior.AbortTransaction)
    (hpo : params.post_only = false)
    (hml : params.match_limit ≠ 0)
    (hbbo : book.find_bbo params.side.opposite = some best)
    (hcross : crossedFlag params.side params.limit_price best.price = true)
    (hqty : min best.base_quantity (min params.max_base_qty
      (fp32_div params.max_quote_qty best.price)) ≠ 0)
    (hid : params.callback_info.take book.callback_id_len =
      ((book.get_tree params.side.opposite).get_callback_info best.callback_info_pt).take
        book.callback_id_len) :
    book.new_order params queue min_bos =
      NewOrderResult.err AoError.WouldSelfTrade book queue := by
  unfold OrderBookState.new_order
  rw [hpo, hstb]
  simp only [loopFuel, matchLoop]
  rw [matchStep_abort book.callback_id_len min_bos params.side params.limit_price
    params.callback_info ⟨book, queue, params.max_base_qty, params.max_quote_qty,
      params.match_limit, true⟩ best hml hbbo hcross hqty hid]

/-- C1 witness: the amended theorem at a concrete first-iteration
abort. -/
theorem c1_amended_witness :
    selfBook.new_order selfParams (EventQueue.new 32) 0 =
      NewOrderResult.err AoError.WouldSelfTrade selfBook (EventQueue.new 32) :=
  c1_amended selfBook (EventQueue.new 32) selfParams 0
    ⟨((1 <<< 32) <<< 64) ||| (2 ^ 64 - 1 - 5), 0, 6⟩
    rfl rfl (by decide) rfl (by decide) (by decide) (by decide)

/-! ### The min_base_order_size invariant (C6) -/

theorem minLeaf_eq_none {ls : List LeafNode} (h : minLeaf ls = Option.none) : ls = [] := by
  cases ls with
  | nil => rfl
  | cons l ls =>
      rw [minLeaf] at h
      cases hm : minLeaf ls with
      | none => rw [hm] at h; exact absurd h (by simp)
      | some m =>
          rw [hm] at h
          dsimp only at h
          by_cases hk : l.key ≤ m.key
          · rw [if_pos hk] at h; exact absurd h (by simp)
          · rw [if_neg hk] at h; exact absurd h (by simp)

theorem minLeaf_mem {ls : List LeafNode} :
    ∀ {m : LeafNode}, minLeaf ls = some m → m ∈ ls := by
  induction ls with
  | nil => intro m h; exact absurd h (by simp [minLeaf])
  | cons l ls ih =>
      intro m h
      rw [minLeaf] at h
      cases hm : minLeaf ls with
      | none =>
          rw [hm] at h
          dsimp only at h
          injection h with h
          exact h ▸ List.mem_cons_self _ _
      | some m' =>
          rw [hm] at h
          dsimp only at h
          by_cases hk : l.key ≤ m'.key
          · rw [if_pos hk] at h
            injection h with h
            exact h ▸ List.mem_cons_self _ _
          · rw [if_neg hk] at h
            injection h with h
            exact h ▸ List.mem_cons_of_mem _ (ih hm)

theorem minLeaf_le {ls : List LeafNode} :
    ∀ {m : LeafNode}, minLeaf ls = some m → ∀ x ∈ ls, m.key ≤ x.key := by
  induction ls with
  | nil => intro m h; exact absurd h (by simp [minLeaf])
  | cons l ls ih =>
      intro m h x hx
      rw [minLeaf] at h
      cases hm : minLeaf ls with
      | none =>
          rw [hm] at h
          dsimp only at h
          injection h with h
          rcases List.mem_cons.mp hx with rfl | hx'
          · exact h ▸ le_refl _
          · exact absurd hx' (by simp [minLeaf_eq_none hm])
      | some m' =>
          rw [hm] at h
          dsimp only at h
          by_cases hk : l.key ≤ m'.key
          · rw [if_pos hk] at h
            injection h with h
            subst h
            rcases List.mem_cons.mp hx with rfl | hx'
            · exact le_refl _
            · exact le_trans hk (ih hm x hx')
          · rw [if_neg hk] at h
            injection h with h
            subst h
            rcases List.mem_cons.mp hx with rfl | hx'
            · exact le_of_not_le hk
            · exact ih hm x hx'

theorem maxLeaf_eq_none {ls : List LeafNode} (h : maxLeaf ls = Option.none) : ls = [] := by
  cases ls with
  | nil => rfl
  | cons l ls =>
      rw [maxLeaf] at h
      cases hm : maxLeaf ls with
      | none => rw [hm] at h; exact absurd h (by simp)
      | some m =>
          rw [hm] at h
          dsimp only at h
          by_cases hk : m.key ≤ l.key
          · rw [if_pos hk] at h; exact absurd h (by simp)
          · rw [if_neg hk] at h; exact absurd h (by simp)

theorem maxLeaf_mem {ls : List LeafNode} :
    ∀ {m : LeafNode}, maxLeaf ls = some m → m ∈ ls := by
  induction ls with
  | nil => intro m h; exact absurd h (by simp [maxLeaf])
  | cons l ls ih =>
      intro m h
      rw [maxLeaf] at h
      cases hm : maxLeaf ls with
      | none =>
          rw [hm] at h
          dsimp only at h
          injection h with h
          exact h ▸ List.mem_cons_self _ _
      | some m' =>
          rw [hm] at h
          dsimp only at h
          by_cases hk : m'.key ≤ l.key
          · rw [if_pos hk] at h
            injection h with h
            exact h ▸ List.mem_cons_self _ _
          · rw [if_neg hk] at h
            injection h with h
            exact h ▸ List.mem_cons_of_mem _ (ih hm)

theorem maxLeaf_ge {ls : List LeafNode} :
    ∀ {m : LeafNode}, maxLeaf ls = some m → ∀ x ∈ ls, x.key ≤ m.key := by
  induction ls with
  | nil => intro m h; exact absurd h (by simp [maxLeaf])
  | cons l ls ih =>
      intro m h x hx
      rw [maxLeaf] at h
      cases hm : maxLeaf ls with
      | none =>
          rw [hm] at h
          dsimp only at h
          injection h with h
          rcases List.mem_cons.mp hx with rfl | hx'
          · exact h ▸ le_refl _
          · exact absurd hx' (by simp [maxLeaf_eq_none hm])
      | some m' =>
          rw [hm] at h
          dsimp only at h
          by_cases hk : m'.key ≤ l.key
          · rw [if_pos hk] at h
            injection h with h
            subst h
            rcases List.mem_cons.mp hx with rfl | hx'
            · exact le_refl _
            · exact le_trans (ih hm x hx') hk
          · rw [if_neg hk] at h
            injection h with h
            subst h
            rcases List.mem_cons.mp hx with rfl | hx'
            · exact le_of_not_le hk
            · exact ih hm x hx'

theorem bboKeyLe_refl (sd : Side) (u : Nat) : bboKeyLe sd u u := by
  cases sd <;> exact le_refl _

theorem bboKeyLe_antisymm {sd : Side} {u v : Nat} (h1 : bboKeyLe sd u v)
    (h2 : bboKeyLe sd v u) : u = v := by
  cases sd
  · exact le_antisymm h2 h1
  · exact le_antisymm h1 h2

theorem bboLeaf_mem {sd : Side} {ls : List LeafNode} {m : LeafNode}
    (h : bboLeaf sd ls = some m) : m ∈ ls := by
  cases sd
  · exact maxLeaf_mem h
  · exact minLeaf_mem h

theorem bboLeaf_best {sd : Side} {ls : List LeafNode} {m : LeafNode}
    (h : bboLeaf sd ls = some m) : ∀ x ∈ ls, bboKeyLe sd m.key x.key := by
  cases sd
  · exact maxLeaf_ge h
  · exact minLeaf_le h

theorem bboLeaf_eq_of {sd : Side} {ls : List LeafNode} {l : LeafNode} (hmem : l ∈ ls)
    (hbest : ∀ x ∈ ls, bboKeyLe sd l.key x.key)
    (huniq : ∀ x ∈ ls, x.key = l.key → x = l) :
    bboLeaf sd ls = some l := by
  cases h : bboLeaf sd ls with
  | none =>
      have hnil : ls = [] := by
        cases sd
        · exact maxLeaf_eq_none h
        · exact minLeaf_eq_none h
      rw [hnil] at hmem
      exact absurd hmem (by simp)
  | some m =>
      have hm := bboLeaf_mem h
      have hkey : m.key = l.key :=
        bboKeyLe_antisymm (bboLeaf_best h l hmem) (hbest m hm)
      rw [huniq m hm hkey]

theorem bboLeaf_replace {sd : Side} {ls : List LeafNode} {m n : LeafNode}
    (h : bboLeaf sd ls = some m) (hk : n.key = m.key) :
    bboLeaf sd (ls.map fun x => if x.key = m.key then n else x) = some n := by
  apply bboLeaf_eq_of
  · exact List.mem_map.mpr ⟨m, bboLeaf_mem h, by rw [if_pos rfl]⟩
  · intro y hy
    rcases List.mem_map.mp hy with ⟨x, hx, rfl⟩
    by_cases hxk : x.key = m.key
    · rw [if_pos hxk]
      exact bboKeyLe_refl _ _
    · rw [if_neg hxk, hk]
      exact bboLeaf_best h x hx
  · intro y hy hyk
    rcases List.mem_map.mp hy with ⟨x, hx, rfl⟩
    by_cases hxk : x.key = m.key
    · rw [if_pos hxk]
    · rw [if_neg hxk] at hyk ⊢
      exact absurd (hyk.trans hk) hxk

theorem mem_remove_by_key {s : Slab} {k : Nat} {x : LeafNode}
    (h : x ∈ (s.remove_by_key k).2.leaves) : x ∈ s.leaves ∧ x.key ≠ k := by
  unfold Slab.remove_by_key at h
  cases hf : s.leaves.find? (fun l => l.key = k) with
  | none =>
      rw [hf] at h
      dsimp only at h
      refine ⟨h, ?_⟩
      have := List.find?_eq_none.mp hf x h
      simpa using this
  | some l =>
      rw [hf] at h
      dsimp only at h
      refine ⟨(List.mem_filter.mp h).1, ?_⟩
      have := (List.mem_filter.mp h).2
      simpa using this

theorem remove_by_key_callback (s : Slab) (k : Nat) :
    (s.remove_by_key k).2.callback_memory = s.callback_memory := by
  unfold Slab.remove_by_key
  split <;> rfl

theorem mem_write_node {s : Slab} {l x : LeafNode} (h : x ∈ (s.write_node l).leaves) :
    x = l ∨ (x ∈ s.leaves ∧ x.key ≠ l.key) := by
  unfold Slab.write_node at h
  rcases List.mem_map.mp h with ⟨y, hy, rfl⟩
  by_cases hk : y.key = l.key
  · left
    rw [if_pos hk]
  · right
    rw [if_neg hk]
    exact ⟨hy, hk⟩

theorem write_node_callback (s : Slab) (l : LeafNode) :
    (s.write_node l).callback_memory = s.callback_memory := rfl

theorem mem_insert_leaf {s s' : Slab} {l x : LeafNode} (h : s.insert_leaf l = Except.ok s')
    (hx : x ∈ s'.leaves) : x = l ∨ x ∈ s.leaves := by
  unfold Slab.insert_leaf at h
  by_cases hc : s.leaf_capacity ≤ s.leaves.length
  · rw [if_pos hc] at h
    cases h
  · rw [if_neg hc] at h
    injection h with h
    rw [← h] at hx
    exact List.mem_cons.mp hx

theorem mem_remove_min {s : Slab} {x : LeafNode} (h : x ∈ s.remove_min.2.leaves) :
    x ∈ s.leaves := by
  unfold Slab.remove_min at h
  cases hf : s.find_min with
  | none => rw [hf] at h; exact h
  | some l =>
      rw [hf] at h
      dsimp only at h
      exact (mem_remove_by_key h).1

theorem mem_remove_max {s : Slab} {x : LeafNode} (h : x ∈ s.remove_max.2.leaves) :
    x ∈ s.leaves := by
  unfold Slab.remove_max at h
  cases hf : s.find_max with
  | none => rw [hf] at h; exact h
  | some l =>
      rw [hf] at h
      dsimp only at h
      exact (mem_remove_by_key h).1

theorem get_tree_set_tree_same (b : OrderBookState) (sd : Side) (t : Slab) :
    (b.set_tree sd t).get_tree sd = t := by
  cases sd <;> rfl

theorem get_tree_set_tree_ne (b : OrderBookState) {sd sd' : Side} (t : Slab) (h : sd ≠ sd') :
    (b.set_tree sd t).get_tree sd' = b.get_tree sd' := by
  cases sd <;> cases sd' <;> first | rfl | exact absurd rfl h

theorem Side.opposite_ne (sd : Side) : sd.opposite ≠ sd := by
  cases sd <;> decide

theorem find_bbo_eq_bboLeaf (b : OrderBookState) (sd : Side) :
    b.find_bbo sd = bboLeaf sd (b.get_tree sd).leaves := by
  cases sd <;> rfl

theorem write_node_get_callback_info (s : Slab) (l : LeafNode) (p : Nat) :
    (s.write_node l).get_callback_info p = s.get_callback_info p := rfl

theorem matchStep_inv (cil min_bos : Nat) (sd : Side) (lp : Nat) (ci : List Nat)
    (po : Bool) (stb : SelfTradeBehavior) (s : LoopState)
    (hInv : LoopInv cil min_bos sd lp ci po stb s) :
    match matchStep cil min_bos sd lp ci po stb s with
    | StepResult.brk s' =>
        goodLeaves min_bos (s'.book.get_tree sd.opposite).leaves ∧
        goodLeaves min_bos (s'.book.get_tree sd).leaves
    | StepResult.cont s' => LoopInv cil min_bos sd lp ci po stb s'
    | StepResult.failed _ _ => True := by
  obtain ⟨hopp, hown⟩ := hInv
  unfold matchStep
  by_cases hml : s.match_limit = 0
  · rw [if_pos hml]
    refine ⟨?_, hown⟩
    intro l hl
    rcases hopp l hl with hg | hb
    · exact hg
    · exact absurd hml hb.2.2.1
  · rw [if_neg hml]
    cases hbbo : s.book.find_bbo sd.opposite with
    | none =>
        dsimp only
        refine ⟨?_, hown⟩
        intro l hl
        rcases hopp l hl with hg | hb
        · exact hg
        · have hfb := hb.2.2.2.2.2.2.2.2
          rw [hbbo] at hfb
          cases hfb
    | some best =>
        dsimp only
        by_cases hpc : (po || !crossedFlag sd lp best.price) = true
        · rw [if_pos hpc]
          refine ⟨?_, hown⟩
          intro l hl
          rcases hopp l hl with hg | hb
          · exact hg
          · obtain ⟨hb1, hb2, hb3, hb4, hb5, hb6, hb7, hb8, hfb⟩ := hb
            rw [hbbo] at hfb
            injection hfb with hfb
            rw [hfb, hb6] at hpc
            rw [hb2] at hpc
            simp at hpc
        · rw [if_neg hpc]
          have hpc' : po = false ∧ crossedFlag sd lp best.price = true := by
            simpa using hpc
          have hpo : po = false := hpc'.1
          have hcrossed : crossedFlag sd lp best.price = true := hpc'.2
          by_cases hqty0 : min best.base_quantity (min s.base_qty_remaining
              (fp32_div s.quote_qty_remaining best.price)) = 0
          · rw [if_pos hqty0]
            refine ⟨?_, hown⟩
            intro l hl
            rcases hopp l hl with hg | hb
            · exact hg
            · obtain ⟨hb1, hb2, hb3, hb4, hb5, hb6, hb7, hb8, hfb⟩ := hb
              rw [hbbo] at hfb
              injection hfb with hfb
              rw [hfb] at hqty0
              have hpos : 1 ≤ min l.base_quantity (min s.base_qty_remaining
                  (fp32_div s.quote_qty_remaining l.price)) :=
                le_min hb7 (le_min hb4 hb5)
              omega
          · rw [if_neg hqty0]
            have hqpos := Nat.pos_of_ne_zero hqty0
            have hbq : 1 ≤ best.base_quantity := le_trans hqpos (min_le_left _ _)
            have hbr : 1 ≤ s.base_qty_remaining :=
              le_trans hqpos (le_trans (min_le_right _ _) (min_le_left _ _))
            have hdv : 1 ≤ fp32_div s.quote_qty_remaining best.price :=
              le_trans hqpos (le_trans (min_le_right _ _) (min_le_right _ _))
            by_cases hself : (stb ≠ SelfTradeBehavior.DecrementTake ∧
                List.take cil ci = List.take cil
                  ((s.book.get_tree sd.opposite).get_callback_info best.callback_info_pt))
            · rw [if_pos hself]
              cases stb with
              | DecrementTake => exact absurd rfl hself.1
              | AbortTransaction => exact trivial
              | CancelProvide =>
                dsimp only
                split
                · rename_i s' heq
                  split at heq <;> cases heq
                · rename_i s' heq
                  split at heq
                  · cases heq
                  · injection heq with heq
                    subst heq
                    by_cases hdel : best.base_quantity -
                        min s.base_qty_remaining best.base_quantity = 0
                    · rw [if_pos hdel]
                      refine ⟨?_, ?_⟩
                      · intro l hl
                        rw [get_tree_set_tree_same] at hl
                        left
                        obtain ⟨hmem, hne⟩ := mem_remove_by_key hl
                        rcases hopp l hmem with hg | hb
                        · exact hg
                        · obtain ⟨_, _, _, _, _, _, _, _, hfb⟩ := hb
                          rw [hbbo] at hfb
                          injection hfb with hfb
                          exact absurd (by subst hfb; rfl) hne
                      · show goodLeaves min_bos
                          (((s.book.set_tree sd.opposite _).get_tree sd).leaves)
                        rw [get_tree_set_tree_ne _ _ (Side.opposite_ne sd)]
                        exact hown
                    · rw [if_neg hdel]
                      refine ⟨?_, ?_⟩
                      · intro l hl
                        rw [get_tree_set_tree_same] at hl
                        rcases mem_write_node hl with rfl | ⟨hmem, hne⟩
                        · right
                          refine ⟨rfl, hpo, hml, hbr, hdv, hcrossed, ?_, ?_, ?_⟩
                          · exact Nat.one_le_iff_ne_zero.mpr hdel
                          · show List.take cil ci = List.take cil
                              (((s.book.set_tree sd.opposite _).get_tree
                                sd.opposite).get_callback_info _)
                            rw [get_tree_set_tree_same, write_node_get_callback_info]
                            exact hself.2
                          · show OrderBookState.find_bbo _ sd.opposite = _
                            rw [find_bbo_eq_bboLeaf, get_tree_set_tree_same]
                            have hb : bboLeaf sd.opposite
                                (s.book.get_tree sd.opposite).leaves = some best := by
                              rw [← find_bbo_eq_bboLeaf]
                              exact hbbo
                            exact bboLeaf_replace (m := best) hb rfl
                        · rcases hopp l hmem with hg | hb
                          · exact Or.inl hg
                          · obtain ⟨_, _, _, _, _, _, _, _, hfb⟩ := hb
                            rw [hbbo] at hfb
                            injection hfb with hfb
                            exact absurd (by subst hfb; rfl) hne
                      · show goodLeaves min_bos
                          (((s.book.set_tree sd.opposite _).get_tree sd).leaves)
                        rw [get_tree_set_tree_ne _ _ (Side.opposite_ne sd)]
                        exact hown
                · exact trivial
            · rw [if_neg hself]
              split
              · rename_i s' heq
                split at heq
                · cases heq
                · split at heq
                  · split at heq <;> cases heq
                  · cases heq
              · rename_i s' heq
                split at heq
                · cases heq
                · split at heq
                  · rename_i hle
                    split at heq
                    · cases heq
                    · injection heq with heq
                      subst heq
                      refine ⟨?_, ?_⟩
                      · intro l hl
                        rw [get_tree_set_tree_same] at hl
                        left
                        obtain ⟨hmem, hne⟩ := mem_remove_by_key hl
                        rcases hopp l hmem with hg | hb
                        · exact hg
                        · obtain ⟨_, _, _, _, _, _, _, _, hfb⟩ := hb
                          rw [hbbo] at hfb
                          injection hfb with hfb
                          exact absurd (by subst hfb; rfl) hne
                      · show goodLeaves min_bos
                          (((s.book.set_tree sd.opposite _).get_tree sd).leaves)
                        rw [get_tree_set_tree_ne _ _ (Side.opposite_ne sd)]
                        exact hown
                  · rename_i hle
                    injection heq with heq
                    subst heq
                    refine ⟨?_, ?_⟩
                    · intro l hl
                      rw [get_tree_set_tree_same] at hl
                      rcases mem_write_node hl with rfl | ⟨hmem, hne⟩
                      · exact Or.inl (lt_of_not_le hle)
                      · rcases hopp l hmem with hg | hb
                        · exact Or.inl hg
                        · obtain ⟨_, _, _, _, _, _, _, _, hfb⟩ := hb
                          rw [hbbo] at hfb
                          injection hfb with hfb
                          exact absurd (by subst hfb; rfl) hne
                    · show goodLeaves min_bos
                        (((s.book.set_tree sd.opposite _).get_tree sd).leaves)
                      rw [get_tree_set_tree_ne _ _ (Side.opposite_ne sd)]
                      exact hown
              · exact trivial


theorem matchLoop_inv (cil min_bos : Nat) (sd : Side) (lp : Nat) (ci : List Nat)
    (po : Bool) (stb : SelfTradeBehavior) :
    ∀ (fuel : Nat) (s s' : LoopState),
      matchLoop cil min_bos sd lp ci po stb fuel s = LoopResult.done s' →
      LoopInv cil min_bos sd lp ci po stb s →
      goodLeaves min_bos (s'.book.get_tree sd.opposite).leaves ∧
      goodLeaves min_bos (s'.book.get_tree sd).leaves := by
  intro fuel
  induction fuel with
  | zero =>
      intro s s' h
      rw [matchLoop] at h
      cases h
  | succ fuel ih =>
      intro s s' h hInv
      rw [matchLoop] at h
      have hstep := matchStep_inv cil min_bos sd lp ci po stb s hInv
      cases hm : matchStep cil min_bos sd lp ci po stb s with
      | brk s1 =>
          rw [hm] at h hstep
          dsimp only at h hstep
          injection h with h
          rw [← h]
          exact hstep
      | failed e s1 =>
          rw [hm] at h
          dsimp only at h
          cases h
      | cont s1 =>
          rw [hm] at h hstep
          dsimp only at h hstep
          exact ih s1 s' h hstep

theorem good_both {min_bos : Nat} {b : OrderBookState} (sd : Side)
    (h1 : goodLeaves min_bos (b.get_tree sd).leaves)
    (h2 : goodLeaves min_bos (b.get_tree sd.opposite).leaves) :
    goodLeaves min_bos b.bids.leaves ∧ goodLeaves min_bos b.asks.leaves := by
  cases sd
  · exact ⟨h1, h2⟩
  · exact ⟨h2, h1⟩

theorem write_callback_info_leaves (s : Slab) (info : List Nat) :
    (s.write_callback_info info).2.leaves = s.leaves := rfl

/-- C6 (confirmed): if every resting leaf of both trees has
`base_quantity` strictly greater than `min_base_order_size` before a
`new_order` call, the same holds of every resting leaf after the call
returns successfully.  This covers the maker-decrement path (a maker at
or below the threshold is removed, not written back), the
`CancelProvide` write-back path (a partially cancelled self-trade maker
is always fully cancelled by following iterations before the loop can
break), and the posting path (a residual is only posted when it exceeds
the threshold; eviction only removes leaves). -/
theorem c6_min_base_order_size_invariant
    (book : OrderBookState) (params : NewOrderParams) (queue : EventQueue)
    (min_bos : Nat) (summary : OrderSummary) (book' : OrderBookState) (queue' : EventQueue)
    (hbids : goodLeaves min_bos book.bids.leaves)
    (hasks : goodLeaves min_bos book.asks.leaves)
    (h : book.new_order params queue min_bos = NewOrderResult.ok summary book' queue') :
    goodLeaves min_bos book'.bids.leaves ∧ goodLeaves min_bos book'.asks.leaves := by
  have hside : ∀ sd', goodLeaves min_bos (book.get_tree sd').leaves := by
    intro sd'
    cases sd'
    · exact hbids
    · exact hasks
  unfold OrderBookState.new_order at h
  dsimp only at h
  cases hloop : matchLoop book.callback_id_len min_bos params.side params.limit_price
      params.callback_info params.post_only params.self_trade_behavior
      (loopFuel ⟨book, queue, params.max_base_qty, params.max_quote_qty,
        params.match_limit, true⟩ params.side)
      ⟨book, queue, params.max_base_qty, params.max_quote_qty, params.match_limit, true⟩ with
  | outOfFuel s =>
      rw [hloop] at h
      cases h
  | failed e s =>
      rw [hloop] at h
      cases h
  | done s =>
      rw [hloop] at h
      have hdone := matchLoop_inv book.callback_id_len min_bos params.side
        params.limit_price params.callback_info params.post_only
        params.self_trade_behavior _ _ _ hloop
        ⟨fun l hl => Or.inl (hside _ l hl), hside _⟩
      dsimp only at h
      split at h
      · injection h with h1 h2 h3
        rw [← h2]
        exact good_both params.side hdone.2 hdone.1
      · rename_i hpost
        have hbtp : min_bos < min (fp32_div s.quote_qty_remaining params.limit_price)
            s.base_qty_remaining := by
          simp only [Bool.or_eq_true, decide_eq_true_eq, not_or] at hpost
          exact not_le.mp hpost.2
        split at h
        · rename_i tree2 hins
          injection h with h1 h2 h3
          rw [← h2]
          refine good_both params.side ?_ ?_
          · rw [get_tree_set_tree_same]
            intro x hx
            rcases mem_insert_leaf hins hx with rfl | hx'
            · exact hbtp
            · rw [get_tree_set_tree_same] at hx'
              exact hdone.2 x hx'
          · rw [get_tree_set_tree_ne _ _ (Ne.symm (Side.opposite_ne params.side)),
              get_tree_set_tree_ne _ _ (Ne.symm (Side.opposite_ne params.side))]
            exact hdone.1
        · rename_i e hins
          cases hsd : params.side with
          | Bid =>
              rw [hsd] at h hdone
              dsimp only [OrderBookState.get_tree, OrderBookState.set_tree] at h
              split at h
              · cases h
              · split at h
                · cases h
                · split at h
                  · cases h
                  · rename_i tree3 hins3
                    injection h with h1 h2 h3
                    rw [← h2]
                    refine ⟨?_, ?_⟩
                    · intro x hx
                      rcases mem_insert_leaf hins3 hx with rfl | hx'
                      · exact hbtp
                      · have hx2 := mem_remove_min hx'
                        exact hdone.2 x hx2
                    · exact hdone.1
          | Ask =>
              rw [hsd] at h hdone
              dsimp only [OrderBookState.get_tree, OrderBookState.set_tree] at h
              split at h
              · cases h
              · split at h
                · cases h
                · split at h
                  · cases h
                  · rename_i tree3 hins3
                    injection h with h1 h2 h3
                    rw [← h2]
                    refine ⟨?_, ?_⟩
                    · exact hdone.1
                    · intro x hx
                      rcases mem_insert_leaf hins3 hx with rfl | hx'
                      · exact hbtp
                      · have hx2 := mem_remove_max hx'
                        exact hdone.2 x hx2


/-- C6 witness: the invariant theorem applied to a concrete post-only
style call on an empty book, whose residual is posted. -/
theorem c6_min_base_order_size_invariant_witness :
    (goodLeaves 1 postBook.bids.leaves ∧ goodLeaves 1 postBook.asks.leaves) ∧
    (goodLeaves 1 postBookAfter.bids.leaves ∧ goodLeaves 1 postBookAfter.asks.leaves) :=
  ⟨⟨fun _ hl => absurd hl (List.not_mem_nil _), fun _ hl => absurd hl (List.not_mem_nil _)⟩,
    c6_min_base_order_size_invariant postBook postParams (EventQueue.new 32) 1
      ⟨some (((1 <<< 32) <<< 64) ||| (2 ^ 64 - 1 - 1)), 5, 5, 5⟩ postBookAfter
      (EventQueue.new 32)
      (fun _ hl => absurd hl (List.not_mem_nil _))
      (fun _ hl => absurd hl (List.not_mem_nil _)) rfl⟩

end Aob
